import Mathlib

/-!
Verification of the command schema builder and interaction decoder of the
`twilight-interactions` repository, as a shallow embedding in Lean 4.

The embedding follows the Rust sources:
  * `twilight-interactions-derive/src/option/create_option.rs`
    (`impl_create_option`, `choice_variant`),
  * `twilight-interactions-derive/src/command/model/parse.rs`
    (`StructField`, `FieldType`, `FieldAttribute`, `ChannelType`,
    `CommandOptionValue`),
  * `twilight-interactions-derive/src/lib.rs` (`extract_option`),
  * `twilight-interactions/src/command/create_command.rs`
    (`CommandOptionExt`, `CommandOptionExtInner`,
    `OptionsCommandOptionDataExt`, `ApplicationCommandData`
    and their conversions into the twilight wire types).

Parts of the repository that are referenced by the sources but whose files
were not provided (the `#[option]` attribute parser `from_variants`, the
decoder generated by `#[derive(CommandModel)]`, and the attribute helpers of
`twilight-interactions-derive/src/parse.rs`) are modelled from the
specification; their doc comments say so explicitly.
-/

namespace TwilightInteractions

/-- Wrapper mirroring `twilight_model::application::command::Number`, a
newtype over `f64`.  Floating point values only ever flow through the code
under verification unchanged (they are parsed from a literal token and stored
verbatim), so the payload is modelled by the literal's decimal token. -/
structure Number where
  digits : String
deriving DecidableEq, Repr

/-- The three kinds of choice enums, mirroring `ChoiceKind` of
`twilight-interactions-derive/src/option/parse.rs` as used by
`create_option.rs`. -/
inductive ChoiceKind where
  | string
  | integer
  | number
deriving DecidableEq, Repr

/-- Literal value of an `#[option(value = ...)]` attribute, mirroring
`ChoiceValue` (`String` / `Int` / `Number`). -/
inductive ChoiceValue where
  | str (s : String)
  | int (i : Int)
  | num (n : Number)
deriving DecidableEq, Repr

/-- Choice kind determined by a literal value. -/
def ChoiceValue.kindOf : ChoiceValue → ChoiceKind
  | .str _ => .string
  | .int _ => .integer
  | .num _ => .number

/-- Parsed `#[option(name = ..., value = ...)]` attribute of one variant. -/
structure ChoiceAttr where
  name : String
  value : ChoiceValue
deriving DecidableEq, Repr

/-- Parsed enum variant mirroring `ParsedVariant` of
`twilight-interactions-derive/src/option/parse.rs`: the variant identifier,
its parsed attribute and its choice kind (always the kind of its own literal
value). -/
structure ParsedVariant where
  span : Nat
  ident : String
  attrib : ChoiceAttr
  kind : ChoiceKind
deriving DecidableEq, Repr

/-- Wire choice entry mirroring
`twilight_model::application::command::CommandOptionChoice` with its
`String` / `Int` / `Number` variants. -/
inductive CommandOptionChoice where
  | string (name : String) (value : String)
  | int (name : String) (value : Int)
  | number (name : String) (value : Number)
deriving DecidableEq, Repr

/-- Display name carried by a wire choice entry. -/
def CommandOptionChoice.choiceName : CommandOptionChoice → String
  | .string n _ => n
  | .int n _ => n
  | .number n _ => n

/-- Literal value carried by a wire choice entry, as a `ChoiceValue`. -/
def CommandOptionChoice.choiceValue : CommandOptionChoice → ChoiceValue
  | .string _ v => .str v
  | .int _ v => .int v
  | .number _ v => .num v

/-- Embedding of `choice_variant` of
`twilight-interactions-derive/src/option/create_option.rs` (lines 59-78):
the generated `choices.push` instruction for one variant.  The constructor is
selected by the variant's kind and the payload is the attribute's literal
value; `from_variants` guarantees that the two agree, so the embedding
selects the constructor from the value itself. -/
def choice_variant (v : ParsedVariant) : CommandOptionChoice :=
  match v.attrib.value with
  | .str s => .string v.attrib.name s
  | .int i => .int v.attrib.name i
  | .num n => .number v.attrib.name n

/-- The choice list built by the `create_option` implementation generated in
`impl_create_option` (lines 23-37): one `choices.push` per variant, iterated
in declaration order (`variants.iter().map(choice_variant)`). -/
def to_choice_list (variants : List ParsedVariant) : List CommandOptionChoice :=
  variants.map choice_variant

/-- Error type mirroring `syn::Error`: a non-empty list of located messages
(`syn::Error::combine` appends; `syn::Error::new` makes a singleton). -/
structure SynError where
  items : List (Nat × String)
deriving DecidableEq, Repr

/-- Embedding of `syn::Error::new(span, msg)`. -/
def SynError.new (span : Nat) (msg : String) : SynError :=
  ⟨[(span, msg)]⟩

/-- Raw enum variant before attribute parsing: its span, identifier and the
parsed `#[option]` attribute when one is present. -/
structure RawVariant where
  span : Nat
  ident : String
  attr : Option ChoiceAttr
deriving DecidableEq, Repr

/-- Modelled from the spec: the per-variant parsing pass of
`ParsedVariant::from_variants`
(`twilight-interactions-derive/src/option/parse.rs` is not among the
provided sources).  Each variant must carry an `#[option]` attribute; they
are parsed in declaration order and the first failure propagates. -/
def parse_variants_list (variants : List RawVariant) :
    Except SynError (List ParsedVariant) :=
  match variants with
  | [] => .ok []
  | rv :: rest =>
      match rv.attr with
      | some a =>
          (parse_variants_list rest).map
            (fun tl => ParsedVariant.mk rv.span rv.ident a a.value.kindOf :: tl)
      | none =>
          .error (SynError.new rv.span "missing required option attribute")

/-- Modelled from the spec: `ParsedVariant::from_variants`
(`twilight-interactions-derive/src/option/parse.rs` is not among the
provided sources).  It parses every variant's `#[option]` attribute in
declaration order, requires a non-empty enum and a single consistent choice
kind, and rejects duplicate choice names and duplicate literal values as
build-time errors (spec §4.1 step 2: "order preserved, no dedup — duplicate
names/values are a build-time error"). -/
def ParsedVariant.from_variants (variants : List RawVariant) (span : Nat) :
    Except SynError (List ParsedVariant × ChoiceKind) :=
  match parse_variants_list variants with
  | .error e => .error e
  | .ok parsed =>
    match parsed.head? with
    | none => .error (SynError.new span "enum must have at least one variant")
    | some v0 =>
      if ¬ parsed.all ( fun v => v.kind = v0.kind ) then
        .error (SynError.new span "inconsistent choice value types")
      else if ¬ (parsed.map (fun v => v.attrib.name)).Nodup then
        .error (SynError.new span "duplicate choice name")
      else if ¬ (parsed.map (fun v => v.attrib.value)).Nodup then
        .error (SynError.new span "duplicate choice value")
      else
        .ok (parsed, v0.kind)

/-- Enum data of a `DeriveInput`, mirroring `syn::Data`. -/
inductive SynData where
  | enumData (variants : List RawVariant)
  | structData
  | unionData
deriving DecidableEq, Repr

/-- Mirrors `syn::DeriveInput` as consumed by `impl_create_option`. -/
structure DeriveInput where
  span : Nat
  ident : String
  data : SynData
deriving DecidableEq, Repr

/-- Embedding of `impl_create_option`
(`twilight-interactions-derive/src/option/create_option.rs` lines 7-40): the
derive fails unless applied to an enum, parses the variants through
`from_variants`, and the generated `create_option` body builds the choice
list by one push per variant in order.  The result models the choice list
built by the generated code together with the enum's choice kind. -/
def impl_create_option (input : DeriveInput) :
    Except SynError (List CommandOptionChoice × ChoiceKind) :=
  match input.data with
  | .enumData variants =>
      (ParsedVariant.from_variants variants input.span).map
        (fun p => (to_choice_list p.1, p.2))
  | _ =>
      .error (SynError.new input.span
        "`#[derive(CommandOption)] can only be applied to enums")

/-- Modelled from the spec: the value-to-variant direction (`from_option` in
the generated `CommandOption` impl, produced by
`twilight-interactions-derive/src/option/parse_option.rs`, not among the
provided sources).  Spec §4.2 step 3 / §4.4: the decoder maps a received
literal value to the matching variant by literal value; no match is a decode
error (modelled as `none`). -/
def from_literal (variants : List ParsedVariant) (value : ChoiceValue) :
    Option ParsedVariant :=
  variants.find? ( fun v => decide (v.attrib.value = value) )

/-- Attribute literal mirroring `syn::Lit`.  An integer literal token is a
non-negative digit sequence (`syn::LitInt` stores arbitrary-precision
digits); a float literal is kept as its decimal token. -/
inductive Lit where
  | str (s : String)
  | int (n : Nat)
  | float (f : Number)
  | boolLit (b : Bool)
  | charLit (c : Char)
  | byteStr
deriving DecidableEq, Repr

/-- Attribute value: a literal together with its span, mirroring `AttrValue`
of `twilight-interactions-derive/src/parse.rs` as used by `parse.rs` of the
command model (methods `inner()`, `span()`, `parse_string`, `parse_bool`). -/
structure AttrValue where
  span : Nat
  lit : Lit
deriving DecidableEq, Repr

/-- Modelled from the spec: `AttrValue::parse_string` lives in
`twilight-interactions-derive/src/parse.rs`, which is not among the provided
sources.  Per spec §4.3, `as_string` fails with a typed reason on a wrong
literal kind. -/
def AttrValue.parse_string (attr : AttrValue) : Except SynError String :=
  match attr.lit with
  | .str s => .ok s
  | _ => .error (SynError.new attr.span "expected string literal")

/-- Modelled from the spec: `AttrValue::parse_bool` of the missing
`twilight-interactions-derive/src/parse.rs`; `as_bool` fails with a typed
reason on a wrong literal kind (spec §4.3). -/
def AttrValue.parse_bool (attr : AttrValue) : Except SynError Bool :=
  match attr.lit with
  | .boolLit b => .ok b
  | _ => .error (SynError.new attr.span "expected boolean literal")

/-- Parsed command option bound value, mirroring `CommandOptionValue` of
`twilight-interactions-derive/src/command/model/parse.rs` (lines 226-231).
The wire type `twilight_model::application::command::CommandOptionValue`
used for `max_value`/`min_value` fields has the same two constructors and is
represented by this same type. -/
inductive CommandOptionValue where
  | Integer (i : Int)
  | Number (n : Number)
deriving DecidableEq, Repr

/-- Embedding of `CommandOptionValue::parse_attr` (`parse.rs` lines
233-245): an integer literal is parsed with `base10_parse::<i64>` (which
fails when the digits exceed the `i64` range), a float literal with
`base10_parse::<f64>` (total on float tokens), and every other literal kind
is rejected with the error "Invalid attribute type, expected integer or
float". -/
def CommandOptionValue.parse_attr (attr : AttrValue) :
    Except SynError CommandOptionValue :=
  match attr.lit with
  | .int n =>
      if n ≤ 9223372036854775807 then
        .ok (.Integer (n : Int))
      else
        .error (SynError.new attr.span "number too large to fit in target type")
  | .float f => .ok (.Number f)
  | _ =>
      .error (SynError.new attr.span
        "Invalid attribute type, expected integer or float")

/-- Parsed channel type, mirroring `ChannelType` of `parse.rs` lines
179-191. -/
inductive ChannelType where
  | GuildText
  | Private
  | GuildVoice
  | Group
  | GuildCategory
  | GuildNews
  | GuildStore
  | GuildNewsThread
  | GuildPublicThread
  | GuildPrivateThread
  | GuildStageVoice
deriving DecidableEq, Repr

/-- Embedding of `ChannelType::parse` (`parse.rs` lines 205-223). -/
def ChannelType.parse (value : String) (span : Nat) :
    Except SynError ChannelType :=
  match value with
  | "guild_text" => .ok .GuildText
  | "private" => .ok .Private
  | "guild_voice" => .ok .GuildVoice
  | "group" => .ok .Group
  | "guild_category" => .ok .GuildCategory
  | "guild_news" => .ok .GuildNews
  | "guild_store" => .ok .GuildStore
  | "guild_news_thread" => .ok .GuildNewsThread
  | "guild_public_thread" => .ok .GuildPublicThread
  | "guild_private_thread" => .ok .GuildPrivateThread
  | "guild_stage_voice" => .ok .GuildStageVoice
  | invalid =>
      .error (SynError.new span
        ("`" ++ invalid ++ "` is not a valid channel type"))

/-- Embedding of `ChannelType::parse_attr` (`parse.rs` lines 195-202): the
attribute value must be a string, which is split on whitespace and every
word parsed as a channel type. -/
def ChannelType.parse_attr (attr : AttrValue) :
    Except SynError (List ChannelType) := do
  let val ← attr.parse_string
  ((val.split (fun c => c = ' ')).filter (fun s => ¬ s.isEmpty)).mapM
    (fun v => ChannelType.parse v attr.span)

mutual

/-- Mirrors `syn::Type` as inspected by `extract_option`: a path type with
its optional qself, optional leading colon and segment list, or any other
type form. -/
inductive SynType where
  | path (qself : Bool) (leadingColon : Bool) (segments : List SynSegment)
  | other

/-- Mirrors `syn::PathSegment`: an identifier with its path arguments. -/
inductive SynSegment where
  | mk (ident : String) (arguments : SynPathArguments)

/-- Mirrors `syn::PathArguments`. -/
inductive SynPathArguments where
  | noArgs
  | angleBracketed (args : List SynGenericArg)
  | parenthesized

/-- Mirrors `syn::GenericArgument` as inspected by `extract_option`. -/
inductive SynGenericArg where
  | typeArg (ty : SynType)
  | lifetime

end

/-- Identifier of a path segment. -/
def SynSegment.ident : SynSegment → String
  | .mk i _ => i

/-- Arguments of a path segment. -/
def SynSegment.arguments : SynSegment → SynPathArguments
  | .mk _ a => a

/-- Embedding of the inner `check_name` closure of `extract_option`
(`twilight-interactions-derive/src/lib.rs` lines 23-27): no leading colon,
exactly one segment, named `Option`. -/
def check_name (leadingColon : Bool) (segments : List SynSegment) : Bool :=
  leadingColon = false && segments.length == 1 &&
    (match segments.head? with
     | some s => s.ident == "Option"
     | none => false)

/-- Embedding of `extract_option`
(`twilight-interactions-derive/src/lib.rs` lines 22-45): extracts `T` from a
type written exactly as the bare `Option<T>` path.  The source's
`params.args.first().unwrap()` panics on an empty angle-bracket list; that
case cannot arise for a parsed `Option<...>` type and is modelled as
`none`. -/
def extract_option (ty : SynType) : Option SynType :=
  match ty with
  | .path qself lead segs =>
      if qself = false && check_name lead segs then
        match segs.head? with
        | some s =>
            match s.arguments with
            | .angleBracketed args =>
                match args.head? with
                | some (.typeArg t) => some t
                | some .lifetime => none
                | none => none
            | _ => none
        | none => none
      else
        none
  | .other => none

/-- Mirrors `FieldType` of `parse.rs` lines 22-25. -/
inductive FieldType where
  | Required
  | Optional
deriving DecidableEq, Repr

/-- Embedding of `FieldType::required` (`parse.rs` lines 56-63). -/
def FieldType.required : FieldType → Bool
  | .Required => true
  | .Optional => false

/-- A source attribute such as `#[command(...)]`, already token-parsed into
its name and a list of `key = literal` pairs (the `Meta` shape consumed by
`NamedAttrs::parse`). -/
structure SynAttribute where
  span : Nat
  name : String
  pairs : List (String × AttrValue)
deriving DecidableEq, Repr

/-- Modelled from the spec: `find_attr` of the missing
`twilight-interactions-derive/src/parse.rs`; finds the attribute with the
given name. -/
def find_attr (attrs : List SynAttribute) (name : String) :
    Option SynAttribute :=
  attrs.find? (fun a => a.name == name)

/-- Modelled from the spec: `NamedAttrs` of the missing
`twilight-interactions-derive/src/parse.rs`: a validated set of named
attribute values. -/
structure NamedAttrs where
  pairs : List (String × AttrValue)
deriving DecidableEq, Repr

/-- Modelled from the spec: `NamedAttrs::parse` of the missing
`twilight-interactions-derive/src/parse.rs`; rejects keys outside the
expected list. -/
def NamedAttrs.parse (attr : SynAttribute) (allowed : List String) :
    Except SynError NamedAttrs :=
  if attr.pairs.all (fun p => allowed.contains p.1) then
    .ok ⟨attr.pairs⟩
  else
    .error (SynError.new attr.span "unexpected attribute name")

/-- Value of a named attribute, if present. -/
def NamedAttrs.get (na : NamedAttrs) (k : String) : Option AttrValue :=
  (na.pairs.find? (fun p => p.1 == k)).map (fun p => p.2)

/-- Embedding of `Option::map` followed by `transpose()?` as used throughout
`FieldAttribute::parse`. -/
def transposeMap (o : Option AttrValue)
    (f : AttrValue → Except SynError α) : Except SynError (Option α) :=
  match o with
  | some v => (f v).map some
  | none => .ok none

/-- Modelled from the spec: `parse_name` of the missing
`twilight-interactions-derive/src/parse.rs`; a name is a string of at most
32 characters (spec §3: "name length ≤ 32 ... violated at schema-build
time"). -/
def parse_name (v : AttrValue) : Except SynError String := do
  let s ← v.parse_string
  if 1 ≤ s.length ∧ s.length ≤ 32 then
    pure s
  else
    throw (SynError.new v.span "invalid name length")

/-- Modelled from the spec: `parse_desc` of the missing
`twilight-interactions-derive/src/parse.rs`; a description is a string of at
most 100 characters (spec §3). -/
def parse_desc (v : AttrValue) : Except SynError String := do
  let s ← v.parse_string
  if 1 ≤ s.length ∧ s.length ≤ 100 then
    pure s
  else
    throw (SynError.new v.span "invalid description length")

/-- Modelled from the spec: `parse_help` of the missing
`twilight-interactions-derive/src/parse.rs`; help must not be empty (doc of
`ApplicationCommandData.help`). -/
def parse_help (v : AttrValue) : Except SynError String := do
  let s ← v.parse_string
  if s.isEmpty then
    throw (SynError.new v.span "help must not be empty")
  else
    pure s

/-- Mirrors `FieldAttribute` of `parse.rs` lines 101-118. -/
structure FieldAttribute where
  rename : Option String
  desc : Option String
  help : Option String
  autocomplete : Bool
  channel_types : List ChannelType
  max_value : Option CommandOptionValue
  min_value : Option CommandOptionValue
deriving DecidableEq, Repr

/-- The `Default` instance derived on `FieldAttribute` in the source. -/
def FieldAttribute.default : FieldAttribute :=
  ⟨none, none, none, false, [], none, none⟩

/-- Embedding of `FieldAttribute::parse` (`parse.rs` lines 120-168): the
attribute pairs are validated against the expected names, then each value is
parsed; any parse error propagates immediately through `?`. -/
def FieldAttribute.parse (attr : SynAttribute) :
    Except SynError FieldAttribute := do
  let attrs ← NamedAttrs.parse attr
    ["rename", "desc", "help", "autocomplete", "channel_types",
     "max_value", "min_value"]
  let rename ← transposeMap (attrs.get "rename") parse_name
  let desc ← transposeMap (attrs.get "desc") parse_desc
  let help ← transposeMap (attrs.get "help") parse_help
  let autocomplete ←
    (transposeMap (attrs.get "autocomplete") AttrValue.parse_bool).map
      (fun o => o.getD false)
  let channel_types ←
    (transposeMap (attrs.get "channel_types") ChannelType.parse_attr).map
      (fun o => o.getD [])
  let max_value ← transposeMap (attrs.get "max_value")
    CommandOptionValue.parse_attr
  let min_value ← transposeMap (attrs.get "min_value")
    CommandOptionValue.parse_attr
  pure ⟨rename, desc, help, autocomplete, channel_types, max_value,
    min_value⟩

/-- Mirrors `syn::Field` as consumed by `StructField::from_field`: the
span of the field's type, its identifier, its declared type and its
attributes. -/
structure SynField where
  span : Nat
  ident : String
  ty : SynType
  attrs : List SynAttribute

/-- Mirrors `StructField` of `parse.rs` lines 11-19 (the unparsed
`raw_attrs` are kept alongside the parsed data as in the source). -/
structure StructField where
  span : Nat
  ident : String
  ty : SynType
  raw_attrs : List SynAttribute
  attributes : FieldAttribute
  kind : FieldType

/-- Embedding of `StructField::from_field` (`parse.rs` lines 29-48): the
field is optional exactly when `extract_option` recognizes its type, in
which case the inner type is kept; the `#[command]` attribute, when present,
is parsed (errors propagate through `?`). -/
def StructField.from_field (field : SynField) :
    Except SynError StructField :=
  let p :=
    match extract_option field.ty with
    | some ty => (FieldType.Optional, ty)
    | none => (FieldType.Required, field.ty)
  match find_attr field.attrs "command" with
  | some attr =>
      match FieldAttribute.parse attr with
      | .ok attributes =>
          .ok ⟨field.span, field.ident, p.2, field.attrs, attributes, p.1⟩
      | .error e => .error e
  | none =>
      .ok ⟨field.span, field.ident, p.2, field.attrs,
        FieldAttribute.default, p.1⟩

/-- Embedding of `StructField::from_fields` (`parse.rs` lines 51-54):
`fields.named.into_iter().map(Self::from_field).collect()`.  Collecting an
iterator of `Result`s into `Result<Vec<_>>` stops at the first error, which
is exactly `List.mapM` in the `Except` monad. -/
def StructField.from_fields (fields : List SynField) :
    Except SynError (List StructField) :=
  fields.mapM StructField.from_field

/-- Locale-to-string mapping, mirroring `HashMap<String, String>` as used
for name and description localizations. -/
abbrev LocalizationMap := List (String × String)

/-- Permission bits, mirroring `twilight_model::guild::Permissions`. -/
abbrev Permissions := Nat

/-- Mirrors `twilight_model::...::BaseCommandOptionData`. -/
structure BaseCommandOptionData where
  description : String
  name : String
  required : Bool
deriving DecidableEq, Repr

/-- Mirrors `twilight_model::...::ChoiceCommandOptionData`. -/
structure ChoiceCommandOptionData where
  autocomplete : Bool
  description : String
  name : String
  required : Bool
  choices : List CommandOptionChoice
deriving DecidableEq, Repr

/-- Mirrors `twilight_model::...::NumberCommandOptionData`. -/
structure NumberCommandOptionData where
  autocomplete : Bool
  choices : List CommandOptionChoice
  description : String
  max_value : Option CommandOptionValue
  min_value : Option CommandOptionValue
  name : String
  required : Bool
deriving DecidableEq, Repr

/-- Mirrors `twilight_model::...::ChannelCommandOptionData`. -/
structure ChannelCommandOptionData where
  channel_types : List ChannelType
  description : String
  name : String
  required : Bool
deriving DecidableEq, Repr

mutual

/-- Mirrors `CommandOptionExt` of
`twilight-interactions/src/command/create_command.rs` (lines 144-149): the
inner option together with the additional optional help. -/
inductive CommandOptionExt where
  | mk (inner : CommandOptionExtInner) (help : Option String)

/-- Mirrors `CommandOptionExtInner` (`create_command.rs` lines 154-166). -/
inductive CommandOptionExtInner where
  | SubCommand (d : OptionsCommandOptionDataExt)
  | SubCommandGroup (d : OptionsCommandOptionDataExt)
  | String (d : ChoiceCommandOptionData)
  | Integer (d : NumberCommandOptionData)
  | Boolean (d : BaseCommandOptionData)
  | User (d : BaseCommandOptionData)
  | Channel (d : ChannelCommandOptionData)
  | Role (d : BaseCommandOptionData)
  | Mentionable (d : BaseCommandOptionData)
  | Number (d : NumberCommandOptionData)
  | Attachment (d : BaseCommandOptionData)

/-- Mirrors `OptionsCommandOptionDataExt` (`create_command.rs` lines
186-194): description, name and the nested extended options. -/
inductive OptionsCommandOptionDataExt where
  | mk (description : String) (name : String)
      (options : List CommandOptionExt)

end

mutual

/-- Mirrors the wire type
`twilight_model::application::command::CommandOption`. -/
inductive CommandOption where
  | SubCommand (d : OptionsCommandOptionData)
  | SubCommandGroup (d : OptionsCommandOptionData)
  | String (d : ChoiceCommandOptionData)
  | Integer (d : NumberCommandOptionData)
  | Boolean (d : BaseCommandOptionData)
  | User (d : BaseCommandOptionData)
  | Channel (d : ChannelCommandOptionData)
  | Role (d : BaseCommandOptionData)
  | Mentionable (d : BaseCommandOptionData)
  | Number (d : NumberCommandOptionData)
  | Attachment (d : BaseCommandOptionData)

/-- Mirrors the wire type
`twilight_model::application::command::OptionsCommandOptionData`, which
carries localization maps for name and description. -/
inductive OptionsCommandOptionData where
  | mk (description : String) (name : String)
      (options : List CommandOption)
      (description_localizations : Option LocalizationMap)
      (name_localizations : Option LocalizationMap)

end

/-- Description of a wire subcommand node. -/
def OptionsCommandOptionData.description : OptionsCommandOptionData → String
  | .mk d _ _ _ _ => d

/-- Name of a wire subcommand node. -/
def OptionsCommandOptionData.name : OptionsCommandOptionData → String
  | .mk _ n _ _ _ => n

/-- Nested options of a wire subcommand node. -/
def OptionsCommandOptionData.options :
    OptionsCommandOptionData → List CommandOption
  | .mk _ _ o _ _ => o

/-- Description localizations of a wire subcommand node. -/
def OptionsCommandOptionData.description_localizations :
    OptionsCommandOptionData → Option LocalizationMap
  | .mk _ _ _ dl _ => dl

/-- Name localizations of a wire subcommand node. -/
def OptionsCommandOptionData.name_localizations :
    OptionsCommandOptionData → Option LocalizationMap
  | .mk _ _ _ _ nl => nl

mutual

/-- Embedding of `impl From<CommandOptionExt> for CommandOption`
(`create_command.rs` lines 226-230): `o.inner.into()` — the help field is
not consulted. -/
def CommandOption.fromExt : CommandOptionExt → CommandOption
  | .mk inner _help => CommandOption.fromExtInner inner

/-- Embedding of `impl From<CommandOptionExtInner> for CommandOption`
(`create_command.rs` lines 208-224). -/
def CommandOption.fromExtInner : CommandOptionExtInner → CommandOption
  | .SubCommand d => .SubCommand (OptionsCommandOptionData.fromExt d)
  | .SubCommandGroup d => .SubCommandGroup (OptionsCommandOptionData.fromExt d)
  | .String d => .String d
  | .Integer d => .Integer d
  | .Boolean d => .Boolean d
  | .User d => .User d
  | .Channel d => .Channel d
  | .Role d => .Role d
  | .Mentionable d => .Mentionable d
  | .Number d => .Number d
  | .Attachment d => .Attachment d

/-- Embedding of `impl From<OptionsCommandOptionDataExt> for
OptionsCommandOptionData` (`create_command.rs` lines 196-206): converts the
nested options and sets both localization maps to `None`. -/
def OptionsCommandOptionData.fromExt :
    OptionsCommandOptionDataExt → OptionsCommandOptionData
  | .mk description name options =>
      .mk description name (commandOptionListFromExt options) none none

/-- The `options.into_iter().map(CommandOption::from).collect()` loop. -/
def commandOptionListFromExt : List CommandOptionExt → List CommandOption
  | [] => []
  | o :: rest => CommandOption.fromExt o :: commandOptionListFromExt rest

end

/-- Mirrors `CommandType`; only `ChatInput` is produced by the sources. -/
inductive CommandType where
  | ChatInput
deriving DecidableEq, Repr

/-- Mirrors `ApplicationCommandData` (`create_command.rs` lines 237-258). -/
structure ApplicationCommandData where
  name : String
  name_localizations : Option LocalizationMap
  description : String
  description_localizations : Option LocalizationMap
  help : Option String
  options : List CommandOptionExt
  dm_permission : Option Bool
  default_member_permissions : Option Permissions
  group : Bool

/-- Mirrors the wire type `twilight_model::application::command::Command`,
with the fields written by `impl From<ApplicationCommandData> for Command`.
Ids are modelled as naturals. -/
structure Command where
  application_id : Option Nat
  guild_id : Option Nat
  name : String
  name_localizations : Option LocalizationMap
  default_member_permissions : Option Permissions
  dm_permission : Option Bool
  description : String
  description_localizations : Option LocalizationMap
  id : Option Nat
  kind : CommandType
  options : List CommandOption
  version : Nat

/-- Embedding of `impl From<ApplicationCommandData> for Command`
(`create_command.rs` lines 260-277): every field of `Command` is filled
from the data; `help` and `group` have no counterpart and are dropped. -/
def Command.fromData (item : ApplicationCommandData) : Command :=
  ⟨none, none, item.name, item.name_localizations,
    item.default_member_permissions, item.dm_permission, item.description,
    item.description_localizations, none, .ChatInput,
    commandOptionListFromExt item.options, 1⟩

mutual

/-- Erases every help string of an extended option tree, leaving all other
data unchanged. -/
def CommandOptionExt.stripHelp : CommandOptionExt → CommandOptionExt
  | .mk inner _help => .mk (CommandOptionExtInner.stripHelp inner) none

/-- Erases every help string inside an inner extended option. -/
def CommandOptionExtInner.stripHelp :
    CommandOptionExtInner → CommandOptionExtInner
  | .SubCommand d => .SubCommand (OptionsCommandOptionDataExt.stripHelp d)
  | .SubCommandGroup d =>
      .SubCommandGroup (OptionsCommandOptionDataExt.stripHelp d)
  | .String d => .String d
  | .Integer d => .Integer d
  | .Boolean d => .Boolean d
  | .User d => .User d
  | .Channel d => .Channel d
  | .Role d => .Role d
  | .Mentionable d => .Mentionable d
  | .Number d => .Number d
  | .Attachment d => .Attachment d

/-- Erases every help string inside a subcommand data node. -/
def OptionsCommandOptionDataExt.stripHelp :
    OptionsCommandOptionDataExt → OptionsCommandOptionDataExt
  | .mk description name options =>
      .mk description name (stripHelpList options)

/-- Erases every help string of a list of extended options. -/
def stripHelpList : List CommandOptionExt → List CommandOptionExt
  | [] => []
  | o :: rest => CommandOptionExt.stripHelp o :: stripHelpList rest

end

/-- Erases the help string of command data and of all its options. -/
def ApplicationCommandData.stripHelp
    (item : ApplicationCommandData) : ApplicationCommandData :=
  ⟨item.name, item.name_localizations, item.description,
    item.description_localizations, none, stripHelpList item.options,
    item.dm_permission, item.default_member_permissions, item.group⟩

mutual

/-- Mirrors `twilight_model::application::interaction::application_command::
CommandDataOption`: one named entry of a runtime option tree. -/
inductive CommandDataOption where
  | mk (name : String) (value : InteractionOptionValue)

/-- Mirrors the runtime `CommandOptionValue` of
`twilight_model::application::interaction::application_command` (a distinct
type from the schema-side bound values): the tagged value of one runtime
option, with nested option lists for subcommands and groups. -/
inductive InteractionOptionValue where
  | string (s : String)
  | integer (i : Int)
  | number (n : Number)
  | boolean (b : Bool)
  | subCommand (options : List CommandDataOption)
  | subCommandGroup (options : List CommandDataOption)

end

/-- Name of a runtime option entry. -/
def CommandDataOption.name : CommandDataOption → String
  | .mk n _ => n

/-- Value of a runtime option entry. -/
def CommandDataOption.value : CommandDataOption → InteractionOptionValue
  | .mk _ v => v

/-- Scalar kinds of leaf fields of a Definition AST node. -/
inductive FieldKind where
  | string
  | integer
  | number
  | boolean
deriving DecidableEq, Repr

/-- One leaf field of a Definition AST node: platform-facing name, scalar
kind and optionality (spec §3). -/
structure FieldDef where
  name : String
  kind : FieldKind
  optional : Bool
deriving DecidableEq, Repr

/-- Definition AST as consumed by the decoder (spec §3): a struct-style
command is a list of leaf fields; an enum-style command (SubCommand or
SubCommandGroup level) is an ordered list of named children. -/
inductive DefTree where
  | leaf (fields : List FieldDef)
  | node (children : List (String × DefTree))

/-- Typed scalar produced by decoding one leaf field. -/
inductive ScalarVal where
  | str (s : String)
  | int (i : Int)
  | num (n : Number)
  | boolVal (b : Bool)
deriving DecidableEq, Repr

/-- Typed value tree produced by the decoder: a record of set/absent fields
for a struct-style command, or the selected variant of an enum-style
command. -/
inductive Decoded where
  | record (fields : List (String × Option ScalarVal))
  | variant (name : String) (inner : Decoded)

/-- Decode-time errors (spec §7): fail-fast, typed, never partial. -/
inductive DecodeError where
  | emptyOptions
  | tooManyOptions
  | unknownSubcommand (name : String)
  | invalidKind (name : String)
  | missingField (name : String)
deriving DecidableEq, Repr

/-- Looks up the value of the named entry among the immediate children of a
runtime option tree (spec §4.2 step 1). -/
def lookupOpt (opts : List CommandDataOption) (name : String) :
    Option InteractionOptionValue :=
  (opts.find? (fun o => o.name == name)).map (fun o => o.value)

/-- Coerces a runtime value into the scalar of the expected kind; a wrong
tagged-union variant yields `none` (spec §4.2 step 2). -/
def coerce (kind : FieldKind) (v : InteractionOptionValue) :
    Option ScalarVal :=
  match kind, v with
  | .string, .string s => some (.str s)
  | .integer, .integer i => some (.int i)
  | .number, .number n => some (.num n)
  | .boolean, .boolean b => some (.boolVal b)
  | _, _ => none

/-- Modelled from the spec: leaf decoding of the decoder generated by
`#[derive(CommandModel)]` (the generating code under
`twilight-interactions-derive/src/command/model/` is not among the provided
sources).  Spec §4.2 step 2: present fields are coerced per kind (wrong kind
is an error), absent optional fields become absent results, absent required
fields are an error. -/
def decodeFields (fields : List FieldDef) (opts : List CommandDataOption) :
    Except DecodeError (List (String × Option ScalarVal)) :=
  match fields with
  | [] => .ok []
  | fd :: rest =>
      match lookupOpt opts fd.name with
      | some v =>
          match coerce fd.kind v with
          | some sv => (decodeFields rest opts).map
              (fun tl => (fd.name, some sv) :: tl)
          | none => .error (.invalidKind fd.name)
      | none =>
          if fd.optional then
            (decodeFields rest opts).map (fun tl => (fd.name, none) :: tl)
          else
            .error (.missingField fd.name)

/-- First declared child with the given name at a SubCommand or
SubCommandGroup level. -/
def findChild (children : List (String × DefTree)) (name : String) :
    Option DefTree :=
  match children with
  | [] => none
  | (n, t) :: rest => if n = name then some t else findChild rest name

/-- Modelled from the spec: the decoder generated by
`#[derive(CommandModel)]` for enums (the generating code under
`twilight-interactions-derive/src/command/model/` is not among the provided
sources).  Spec §4.2 step 4: at a SubCommand/SubCommandGroup level the
single present child selects which variant is active, matched by name
against the declared children, recursing into that child's own option list;
zero or more than one present children at the level is a decode error,
as is an unknown child name or a non-subcommand value. -/
def decode : DefTree → List CommandDataOption → Except DecodeError Decoded
  | .leaf fields, opts => (decodeFields fields opts).map Decoded.record
  | .node _, [] => .error .emptyOptions
  | .node children, [.mk name (.subCommand sub)] =>
      (match findChild children name with
       | some child => (decode child sub).map (Decoded.variant name)
       | none => .error (.unknownSubcommand name))
  | .node children, [.mk name (.subCommandGroup sub)] =>
      (match findChild children name with
       | some child => (decode child sub).map (Decoded.variant name)
       | none => .error (.unknownSubcommand name))
  | .node _, [.mk name _] => .error (.invalidKind name)
  | .node _, _ :: _ :: _ => .error .tooManyOptions
termination_by _t opts => sizeOf opts

/-! ## Helper lemmas -/

theorem choiceName_choice_variant (v : ParsedVariant) :
    (choice_variant v).choiceName = v.attrib.name := by
  cases hv : v.attrib.value <;>
    simp [choice_variant, hv, CommandOptionChoice.choiceName]

theorem choiceValue_choice_variant (v : ParsedVariant) :
    (choice_variant v).choiceValue = v.attrib.value := by
  cases hv : v.attrib.value <;>
    simp [choice_variant, hv, CommandOptionChoice.choiceValue]

theorem parse_variants_list_ok_attribs :
    ∀ (raws : List RawVariant) (vs : List ParsedVariant),
      parse_variants_list raws = .ok vs →
      vs.map (fun v => v.attrib) = raws.filterMap (fun rv => rv.attr) := by
  intro raws
  induction raws with
  | nil =>
      intro vs h
      simp [parse_variants_list] at h
      simp [← h]
  | cons rv rest ih =>
      intro vs h
      cases ha : rv.attr with
      | none => simp [parse_variants_list, ha] at h
      | some a =>
          simp only [parse_variants_list, ha] at h
          cases hr : parse_variants_list rest with
          | error e => rw [hr] at h; simp [Except.map] at h
          | ok tl =>
              rw [hr] at h
              simp [Except.map] at h
              simp [← h, List.filterMap_cons, ha, ih tl hr]

theorem from_variants_ok {raws : List RawVariant} {span : Nat}
    {vs : List ParsedVariant} {kind : ChoiceKind}
    (h : ParsedVariant.from_variants raws span = .ok (vs, kind)) :
    parse_variants_list raws = .ok vs ∧
    (vs.map (fun v => v.attrib.name)).Nodup ∧
    (vs.map (fun v => v.attrib.value)).Nodup := by
  cases hp : parse_variants_list raws with
  | error e =>
      simp [ParsedVariant.from_variants, hp] at h
  | ok parsed =>
      simp only [ParsedVariant.from_variants, hp] at h
      cases hh : parsed.head? with
      | none => rw [hh] at h; simp at h
      | some v0 =>
          rw [hh] at h
          split at h
          · simp at h
          · split at h
            · simp at h
            · split at h
              · simp at h
              · split at h
                · simp at h
                · rename_i hkind hnames hvals
                  simp only [Except.ok.injEq, Prod.mk.injEq] at h
                  obtain ⟨hvs, -⟩ := h
                  subst hvs
                  exact ⟨rfl, not_not.mp hnames, not_not.mp hvals⟩

theorem from_variants_error_of_dup (variants : List RawVariant) (span : Nat)
    (hdup :
      ¬ ((variants.filterMap (fun rv => rv.attr)).map
          (fun a => a.name)).Nodup ∨
      ¬ ((variants.filterMap (fun rv => rv.attr)).map
          (fun a => a.value)).Nodup) :
    ∃ e, ParsedVariant.from_variants variants span = .error e := by
  cases hfv : ParsedVariant.from_variants variants span with
  | error e => exact ⟨e, rfl⟩
  | ok p =>
      obtain ⟨vs, kind⟩ := p
      obtain ⟨hp, hn, hv⟩ := from_variants_ok hfv
      have hattr := parse_variants_list_ok_attribs variants vs hp
      have hnames : vs.map (fun v => v.attrib.name) =
          (variants.filterMap (fun rv => rv.attr)).map (fun a => a.name) := by
        rw [← hattr, List.map_map]
        rfl
      have hvals : vs.map (fun v => v.attrib.value) =
          (variants.filterMap (fun rv => rv.attr)).map (fun a => a.value) := by
        rw [← hattr, List.map_map]
        rfl
      rcases hdup with hd | hd
      · rw [← hnames] at hd
        exact absurd hn hd
      · rw [← hvals] at hd
        exact absurd hv hd

theorem from_literal_getElem? (vs : List ParsedVariant)
    (hnd : (vs.map (fun v => v.attrib.value)).Nodup) :
    ∀ (i : Nat) (v : ParsedVariant), vs[i]? = some v →
      from_literal vs v.attrib.value = some v := by
  induction vs with
  | nil => intro i v h; simp at h
  | cons a tl ih =>
      simp only [List.map_cons, List.nodup_cons] at hnd
      obtain ⟨hnotin, htl⟩ := hnd
      intro i v h
      cases i with
      | zero =>
          simp at h
          subst h
          simp [from_literal, List.find?]
      | succ n =>
          simp at h
          have hv : v ∈ tl := List.getElem?_mem h
          have hne : ¬ (a.attrib.value = v.attrib.value) := fun he =>
            hnotin (he ▸ List.mem_map_of_mem (fun v => v.attrib.value) hv)
          have hstep : from_literal (a :: tl) v.attrib.value =
              from_literal tl v.attrib.value := by
            simp [from_literal, List.find?, hne]
          rw [hstep]
          exact ih htl n v h

mutual

theorem fromExt_stripHelp : ∀ o : CommandOptionExt,
    CommandOption.fromExt o.stripHelp = CommandOption.fromExt o
  | .mk inner _help => by
      simp [CommandOptionExt.stripHelp, CommandOption.fromExt,
        fromExtInner_stripHelp inner]

theorem fromExtInner_stripHelp : ∀ i : CommandOptionExtInner,
    CommandOption.fromExtInner i.stripHelp = CommandOption.fromExtInner i
  | .SubCommand d => by
      simp [CommandOptionExtInner.stripHelp, CommandOption.fromExtInner,
        fromExtDataNode_stripHelp d]
  | .SubCommandGroup d => by
      simp [CommandOptionExtInner.stripHelp, CommandOption.fromExtInner,
        fromExtDataNode_stripHelp d]
  | .String _ => rfl
  | .Integer _ => rfl
  | .Boolean _ => rfl
  | .User _ => rfl
  | .Channel _ => rfl
  | .Role _ => rfl
  | .Mentionable _ => rfl
  | .Number _ => rfl
  | .Attachment _ => rfl

theorem fromExtDataNode_stripHelp : ∀ d : OptionsCommandOptionDataExt,
    OptionsCommandOptionData.fromExt d.stripHelp =
      OptionsCommandOptionData.fromExt d
  | .mk description name options => by
      simp [OptionsCommandOptionDataExt.stripHelp,
        OptionsCommandOptionData.fromExt, listFromExt_stripHelp options]

theorem listFromExt_stripHelp : ∀ l : List CommandOptionExt,
    commandOptionListFromExt (stripHelpList l) = commandOptionListFromExt l
  | [] => rfl
  | o :: rest => by
      simp [stripHelpList, commandOptionListFromExt, fromExt_stripHelp o,
        listFromExt_stripHelp rest]

end

theorem except_error_bind {ε α β : Type} (e : ε) (f : α → Except ε β) :
    (Except.error e >>= f) = Except.error e := rfl

theorem except_ok_bind {ε α β : Type} (a : α) (f : α → Except ε β) :
    (Except.ok a >>= f) = f a := rfl

theorem except_pure {ε α : Type} (a : α) :
    (pure a : Except ε α) = Except.ok a := rfl

theorem from_field_ok_kind (field : SynField) (sf : StructField)
    (h : StructField.from_field field = .ok sf) :
    sf.kind = (match extract_option field.ty with
               | some _ => FieldType.Optional
               | none => FieldType.Required) := by
  cases hfa : find_attr field.attrs "command" with
  | none =>
      simp only [StructField.from_field, hfa, Except.ok.injEq] at h
      rw [← h]
      cases hext : extract_option field.ty <;> simp [hext]
  | some attr =>
      cases hpa : FieldAttribute.parse attr with
      | error e => simp [StructField.from_field, hfa, hpa] at h
      | ok fa =>
          simp only [StructField.from_field, hfa, hpa,
            Except.ok.injEq] at h
          rw [← h]
          cases hext : extract_option field.ty <;> simp [hext]

theorem extract_option_some_shape (ty : SynType) (t : SynType)
    (h : extract_option ty = some t) :
    ∃ args, ty = SynType.path false false
      [SynSegment.mk "Option"
        (.angleBracketed (.typeArg t :: args))] := by
  cases ty with
  | other => simp [extract_option] at h
  | path qself lead segs =>
      cases qself with
      | true => simp [extract_option, check_name] at h
      | false =>
          cases lead with
          | true => simp [extract_option, check_name] at h
          | false =>
              cases segs with
              | nil => simp [extract_option, check_name] at h
              | cons s rest =>
                  cases rest with
                  | cons s2 r2 => simp [extract_option, check_name] at h
                  | nil =>
                      cases s with
                      | mk ident sargs =>
                          by_cases hid : ident = "Option"
                          · subst hid
                            simp only [extract_option, check_name] at h
                            cases sargs with
                            | noArgs => simp [SynSegment.arguments] at h
                            | parenthesized => simp [SynSegment.arguments] at h
                            | angleBracketed args =>
                                cases args with
                                | nil => simp [SynSegment.arguments] at h
                                | cons a atl =>
                                    cases a with
                                    | lifetime =>
                                        simp [SynSegment.arguments] at h
                                    | typeArg u =>
                                        simp [SynSegment.arguments] at h
                                        exact ⟨atl, by rw [← h.2]⟩
                          · simp [extract_option, check_name,
                              SynSegment.ident, hid] at h

/-! ## Claims -/

/-- Example enum for witnesses: the raw variants of a two-variant choice
enum with integer values. -/
def rawChoicesEx : List RawVariant :=
  [⟨0, "Minute", some ⟨"Minute", ChoiceValue.int 60⟩⟩,
   ⟨1, "Hour", some ⟨"Hour", ChoiceValue.int 3600⟩⟩]

/-- The parsed form of `rawChoicesEx`. -/
def parsedChoicesEx : List ParsedVariant :=
  [⟨0, "Minute", ⟨"Minute", ChoiceValue.int 60⟩, ChoiceKind.integer⟩,
   ⟨1, "Hour", ⟨"Hour", ChoiceValue.int 3600⟩, ChoiceKind.integer⟩]

/-- C1: for every enum deriving choice-option support (one whose variants
pass `from_variants`) and for every index `i`, mapping the literal value of
the `i`-th entry of the generated choice list back through the decoder's
value-to-variant function yields the `i`-th declared variant. -/
theorem choice_roundtrip (raws : List RawVariant) (span : Nat)
    (vs : List ParsedVariant) (kind : ChoiceKind)
    (h : ParsedVariant.from_variants raws span = .ok (vs, kind)) (i : Nat) :
    ((to_choice_list vs)[i]?).bind
      (fun c => from_literal vs c.choiceValue) = vs[i]? := by
  obtain ⟨-, -, hvals⟩ := from_variants_ok h
  cases hv : vs[i]? with
  | none => simp [to_choice_list, List.getElem?_map, hv]
  | some v =>
      simp [to_choice_list, List.getElem?_map, hv, choiceValue_choice_variant]
      exact from_literal_getElem? vs hvals i v hv

/-- C1, witness: the round trip evaluated on a concrete two-variant enum at
index 1. -/
theorem choice_roundtrip_witness :
    ParsedVariant.from_variants rawChoicesEx 9 =
      Except.ok (parsedChoicesEx, ChoiceKind.integer) ∧
    ((to_choice_list parsedChoicesEx)[1]?).bind
      (fun c => from_literal parsedChoicesEx c.choiceValue) =
      parsedChoicesEx[1]? := by
  have h : ParsedVariant.from_variants rawChoicesEx 9 =
      Except.ok (parsedChoicesEx, ChoiceKind.integer) := by rfl
  exact ⟨h,
    choice_roundtrip rawChoicesEx 9 parsedChoicesEx ChoiceKind.integer h 1⟩

/-- C4: building a choice option from an enum whose variants contain
duplicate choice names or duplicate literal values fails with a build-time
error, and duplicates are never silently kept: any successfully generated
choice list has pairwise distinct names and pairwise distinct values. -/
theorem duplicate_choices_rejected (input : DeriveInput) :
    (∀ variants, input.data = .enumData variants →
       (¬ ((variants.filterMap (fun rv => rv.attr)).map
             (fun a => a.name)).Nodup ∨
        ¬ ((variants.filterMap (fun rv => rv.attr)).map
             (fun a => a.value)).Nodup) →
       ∃ e, impl_create_option input = .error e) ∧
    (∀ choices kind,
       impl_create_option input = .ok (choices, kind) →
       (choices.map CommandOptionChoice.choiceName).Nodup ∧
       (choices.map CommandOptionChoice.choiceValue).Nodup) := by
  constructor
  · intro variants hdata hdup
    obtain ⟨e, he⟩ := from_variants_error_of_dup variants input.span hdup
    exact ⟨e, by simp [impl_create_option, hdata, he, Except.map]⟩
  · intro choices kind h
    cases hdata : input.data with
    | structData => simp [impl_create_option, hdata] at h
    | unionData => simp [impl_create_option, hdata] at h
    | enumData variants =>
        simp only [impl_create_option, hdata] at h
        cases hfv : ParsedVariant.from_variants variants input.span with
        | error e => rw [hfv] at h; simp [Except.map] at h
        | ok p =>
            obtain ⟨vs, k⟩ := p
            rw [hfv] at h
            simp only [Except.map, Except.ok.injEq, Prod.mk.injEq] at h
            obtain ⟨hch, -⟩ := h
            obtain ⟨-, hn, hv⟩ := from_variants_ok hfv
            have e1 : (to_choice_list vs).map CommandOptionChoice.choiceName =
                vs.map (fun v => v.attrib.name) := by
              simp [to_choice_list, List.map_map, Function.comp,
                choiceName_choice_variant]
            have e2 : (to_choice_list vs).map CommandOptionChoice.choiceValue =
                vs.map (fun v => v.attrib.value) := by
              simp [to_choice_list, List.map_map, Function.comp,
                choiceValue_choice_variant]
            rw [← hch, e1, e2]
            exact ⟨hn, hv⟩

/-- Raw variants with a duplicated choice name. -/
def dupRawChoices : List RawVariant :=
  [⟨0, "A", some ⟨"same", ChoiceValue.int 1⟩⟩,
   ⟨1, "B", some ⟨"same", ChoiceValue.int 2⟩⟩]

/-- Derive input over `dupRawChoices`. -/
def dupInput : DeriveInput := ⟨5, "Dup", .enumData dupRawChoices⟩

/-- Derive input over `rawChoicesEx`. -/
def goodInput : DeriveInput := ⟨6, "TimeUnit", .enumData rawChoicesEx⟩

/-- C4, witness: a duplicate-name enum is rejected, and the choice list of
a valid enum has distinct names and values. -/
theorem duplicate_choices_rejected_witness :
    (∃ e, impl_create_option dupInput = .error e) ∧
    ((to_choice_list parsedChoicesEx).map
        CommandOptionChoice.choiceName).Nodup ∧
    ((to_choice_list parsedChoicesEx).map
        CommandOptionChoice.choiceValue).Nodup := by
  refine ⟨(duplicate_choices_rejected dupInput).1 dupRawChoices rfl ?_, ?_⟩
  · left
    decide
  · have h : impl_create_option goodInput =
        .ok (to_choice_list parsedChoicesEx, ChoiceKind.integer) := by rfl
    exact (duplicate_choices_rejected goodInput).2 _ _ h

/-- C5: for every choice enum, the generated choice list has exactly one
entry per declared variant, in exactly the declaration order, each entry
carrying that variant's declared display name and literal value, with no
reordering. -/
theorem choice_list_preserves_declaration_order (vs : List ParsedVariant) :
    (to_choice_list vs).length = vs.length ∧
    ∀ i : Nat,
      ((to_choice_list vs)[i]?).map CommandOptionChoice.choiceName =
        (vs[i]?).map (fun v => v.attrib.name) ∧
      ((to_choice_list vs)[i]?).map CommandOptionChoice.choiceValue =
        (vs[i]?).map (fun v => v.attrib.value) := by
  refine ⟨by simp [to_choice_list], ?_⟩
  intro i
  cases h : vs[i]? with
  | none => simp [to_choice_list, List.getElem?_map, h]
  | some v =>
      simp [to_choice_list, List.getElem?_map, h, choiceName_choice_variant,
        choiceValue_choice_variant]

/-- C10: converting an extended subcommand or subcommand-group node into
the platform wire format always sets its name-localization and
description-localization maps to `None`. -/
theorem subcommand_conversion_drops_localizations
    (d : OptionsCommandOptionDataExt) :
    (OptionsCommandOptionData.fromExt d).name_localizations = none ∧
    (OptionsCommandOptionData.fromExt d).description_localizations = none := by
  cases d with
  | mk description name options =>
      exact ⟨rfl, rfl⟩

/-- C7: help metadata is never included in data sent to the platform — the
conversions to the wire `CommandOption` and `Command` produce the same
result whether or not any help strings (at any nesting level) are
present. -/
theorem help_never_sent_to_platform :
    (∀ o : CommandOptionExt,
       CommandOption.fromExt o = CommandOption.fromExt o.stripHelp) ∧
    (∀ item : ApplicationCommandData,
       Command.fromData item = Command.fromData item.stripHelp) := by
  constructor
  · intro o
    exact (fromExt_stripHelp o).symm
  · intro item
    cases item
    simp [Command.fromData, ApplicationCommandData.stripHelp,
      listFromExt_stripHelp]

/-- C8, counterexample: parsing a `max_value`/`min_value` attribute whose
literal is the integer `9223372036854775808` (one past `i64::MAX`) fails,
although the claim states that parsing succeeds for every integer literal:
`base10_parse::<i64>` rejects out-of-range digits. -/
theorem parse_attr_int_overflow :
    CommandOptionValue.parse_attr ⟨7, Lit.int 9223372036854775808⟩ =
      Except.error (SynError.new 7 "number too large to fit in target type")
    := by
  rfl

/-- C8, amended: parsing a `max_value` or `min_value` attribute succeeds
exactly when the literal is an integer fitting a signed 64-bit value
(yielding an `Integer` bound) or a float (yielding a `Number` bound); an
out-of-range integer literal fails with a typed error, and any other
literal kind, including a string, fails with the typed error "Invalid
attribute type, expected integer or float". -/
theorem parse_attr_amended (attr : AttrValue) :
    (∀ n : Nat, attr.lit = .int n → n ≤ 9223372036854775807 →
       CommandOptionValue.parse_attr attr =
         .ok (.Integer (n : Int))) ∧
    (∀ n : Nat, attr.lit = .int n → 9223372036854775807 < n →
       CommandOptionValue.parse_attr attr =
         .error (SynError.new attr.span
           "number too large to fit in target type")) ∧
    (∀ f : Number, attr.lit = .float f →
       CommandOptionValue.parse_attr attr = .ok (.Number f)) ∧
    ((∀ n : Nat, attr.lit ≠ .int n) → (∀ f : Number, attr.lit ≠ .float f) →
       CommandOptionValue.parse_attr attr =
         .error (SynError.new attr.span
           "Invalid attribute type, expected integer or float")) := by
  obtain ⟨span, lit⟩ := attr
  refine ⟨?_, ?_, ?_, ?_⟩
  · intro n h hle
    cases h
    simp [CommandOptionValue.parse_attr, hle]
  · intro n h hlt
    cases h
    simp [CommandOptionValue.parse_attr, Nat.not_le.mpr hlt]
  · intro f h
    cases h
    rfl
  · intro hni hnf
    cases lit with
    | int n => exact absurd rfl (hni n)
    | float f => exact absurd rfl (hnf f)
    | str s => rfl
    | boolLit b => rfl
    | charLit c => rfl
    | byteStr => rfl

/-- C8, witness: the amended statement evaluated at an in-range integer, a
float and a string literal. -/
theorem parse_attr_amended_witness :
    CommandOptionValue.parse_attr ⟨3, Lit.int 50⟩ =
      Except.ok (CommandOptionValue.Integer 50) ∧
    CommandOptionValue.parse_attr ⟨4, Lit.float ⟨"50.0"⟩⟩ =
      Except.ok (CommandOptionValue.Number ⟨"50.0"⟩) ∧
    CommandOptionValue.parse_attr ⟨5, Lit.str "fifty"⟩ =
      Except.error (SynError.new 5
        "Invalid attribute type, expected integer or float") := by
  refine ⟨?_, ?_, ?_⟩
  · exact (parse_attr_amended ⟨3, Lit.int 50⟩).1 50 rfl (by decide)
  · exact (parse_attr_amended ⟨4, Lit.float ⟨"50.0"⟩⟩).2.2.1 ⟨"50.0"⟩ rfl
  · exact (parse_attr_amended ⟨5, Lit.str "fifty"⟩).2.2.2
      (fun n h => by cases h) (fun f h => by cases h)

/-- C6: for every struct field of a command, the parsed field is marked
required exactly when the declared field type is not the bare `Option`
wrapper; `required = false` arises only from the field being declared
optional. -/
theorem required_iff_not_option (field : SynField) (sf : StructField)
    (h : StructField.from_field field = .ok sf) :
    (sf.kind.required = true ↔ extract_option field.ty = none) := by
  have hk := from_field_ok_kind field sf h
  cases hext : extract_option field.ty with
  | none => rw [hext] at hk; simp [hk, FieldType.required]
  | some t => rw [hext] at hk; simp [hk, FieldType.required]

/-- A type written as the bare `Option<T>` path (with `T` the opaque other
type). -/
def bareOptionTy : SynType :=
  .path false false
    [.mk "Option" (.angleBracketed [.typeArg .other])]

/-- A field declared with type `Option<T>` and no attributes. -/
def optField : SynField := ⟨3, "user", bareOptionTy, []⟩

/-- The parse result of `optField`. -/
def optStructField : StructField :=
  ⟨3, "user", .other, [], FieldAttribute.default, .Optional⟩

/-- C6, witness: the requiredness equivalence evaluated at a concrete
optional field. -/
theorem required_iff_not_option_witness :
    StructField.from_field optField = .ok optStructField ∧
    (optStructField.kind.required = true ↔
      extract_option optField.ty = none) := by
  have h : StructField.from_field optField = .ok optStructField := by rfl
  exact ⟨h, required_iff_not_option optField optStructField h⟩

/-- C9: a field is classified as optional only when its type is written
with the bare `Option` path — the parsed kind is `Optional` exactly when
the declared type is a single-segment `Option<...>` path with no leading
colon, so a qualified path such as `std::option::Option<T>` is treated as
required. -/
theorem optional_only_bare_option (field : SynField) (sf : StructField)
    (h : StructField.from_field field = .ok sf) :
    (sf.kind = FieldType.Optional ↔
      ∃ t args, field.ty = SynType.path false false
        [SynSegment.mk "Option"
          (.angleBracketed (.typeArg t :: args))]) := by
  have hk := from_field_ok_kind field sf h
  constructor
  · intro hopt
    rw [hopt] at hk
    cases hext : extract_option field.ty with
    | none => rw [hext] at hk; simp at hk
    | some t =>
        obtain ⟨args, hty⟩ := extract_option_some_shape field.ty t hext
        exact ⟨t, args, hty⟩
  · rintro ⟨t, args, hty⟩
    have hext : extract_option field.ty = some t := by
      rw [hty]
      simp [extract_option, check_name, SynSegment.ident,
        SynSegment.arguments]
    rw [hext] at hk
    exact hk

/-- A type written as the qualified `std::option::Option<T>` path. -/
def qualOptionTy : SynType :=
  .path false false
    [.mk "std" .noArgs, .mk "option" .noArgs,
     .mk "Option" (.angleBracketed [.typeArg .other])]

/-- A field declared with type `std::option::Option<T>`. -/
def qualField : SynField := ⟨4, "user", qualOptionTy, []⟩

/-- The parse result of `qualField`: the qualified path is not recognized,
so the field is required and the type is kept whole. -/
def qualStructField : StructField :=
  ⟨4, "user", qualOptionTy, [], FieldAttribute.default, .Required⟩

/-- C9, witness: a field with a qualified `std::option::Option<T>` type is
parsed as required, via the characterization theorem. -/
theorem optional_only_bare_option_witness :
    StructField.from_field qualField = .ok qualStructField ∧
    qualStructField.kind ≠ FieldType.Optional := by
  have h : StructField.from_field qualField = .ok qualStructField := by rfl
  refine ⟨h, ?_⟩
  intro hopt
  obtain ⟨t, args, hty⟩ :=
    (optional_only_bare_option qualField qualStructField h).mp hopt
  simp [qualField, qualOptionTy] at hty

/-- A field whose `#[command]` attribute carries a string `max_value`,
which is malformed (span 1). -/
def badField1 : SynField :=
  ⟨1, "a", .other, [⟨1, "command", [("max_value", ⟨1, .str "nope"⟩)]⟩]⟩

/-- A second field with the same malformed attribute (span 2). -/
def badField2 : SynField :=
  ⟨2, "b", .other, [⟨2, "command", [("max_value", ⟨2, .str "nope"⟩)]⟩]⟩

/-- C3, counterexample: with two malformed fields, `from_fields` reports a
single-entry error naming only the first field (span 1), although the
second field is also violated — schema building over struct fields is
fail-fast, not collect-all. -/
theorem from_fields_not_aggregated :
    StructField.from_field badField2 =
      .error (SynError.new 2
        "Invalid attribute type, expected integer or float") ∧
    StructField.from_fields [badField1, badField2] =
      .error (SynError.new 1
        "Invalid attribute type, expected integer or float") ∧
    (SynError.new 1
      "Invalid attribute type, expected integer or float").items.length
      = 1 := by
  exact ⟨rfl, rfl, rfl⟩

/-- C3, amended: `StructField::from_fields` is fail-fast — it returns the
error of the first field that fails to parse, alone; fields after the
first failing one are not reported. -/
theorem from_fields_first_error_wins (f : SynField) (fs : List SynField) :
    (∀ e, StructField.from_field f = .error e →
       StructField.from_fields (f :: fs) = .error e) ∧
    (∀ sf, StructField.from_field f = .ok sf →
       StructField.from_fields (f :: fs) =
         (StructField.from_fields fs).map (fun tl => sf :: tl)) := by
  constructor
  · intro e h
    show (f :: fs).mapM StructField.from_field = Except.error e
    rw [List.mapM_cons]
    simp [h, except_error_bind]
  · intro sf h
    show (f :: fs).mapM StructField.from_field =
      (fs.mapM StructField.from_field).map (fun tl => sf :: tl)
    rw [List.mapM_cons]
    cases hfs : fs.mapM StructField.from_field with
    | error e =>
        simp [h, hfs, except_ok_bind, except_error_bind, Except.map]
    | ok tl =>
        simp [h, hfs, except_ok_bind, except_pure, Except.map]

/-- A well-formed field with no attributes. -/
def okField : SynField := ⟨8, "text", .other, []⟩

/-- The parse result of `okField`. -/
def okStructField : StructField :=
  ⟨8, "text", .other, [], FieldAttribute.default, .Required⟩

/-- C3 amended, witness: the fail-fast behavior evaluated on concrete
lists — a failing head short-circuits, an ok head prepends. -/
theorem from_fields_first_error_wins_witness :
    StructField.from_fields [badField1, badField2] =
      .error (SynError.new 1
        "Invalid attribute type, expected integer or float") ∧
    StructField.from_fields [okField, badField2] =
      (StructField.from_fields [badField2]).map
        (fun tl => okStructField :: tl) := by
  exact ⟨(from_fields_first_error_wins badField1 [badField2]).1 _ rfl,
    (from_fields_first_error_wins okField [badField2]).2 okStructField rfl⟩

/-- C2: at a SubCommand/SubCommandGroup level of a Definition AST, if
exactly one child option is present and its name matches a declared child,
decode returns exactly that child's variant (recursively decoded); if zero
or two-or-more children are present at that level, decode returns a typed
decode error. -/
theorem subcommand_selection (cs : List (String × DefTree))
    (opts : List CommandDataOption) :
    (opts.length ≠ 1 → ∃ e, decode (.node cs) opts = .error e) ∧
    (∀ name sub child,
       (opts = [CommandDataOption.mk name (.subCommand sub)] ∨
        opts = [CommandDataOption.mk name (.subCommandGroup sub)]) →
       findChild cs name = some child →
       decode (.node cs) opts =
         (decode child sub).map (Decoded.variant name)) := by
  constructor
  · intro h
    cases opts with
    | nil => exact ⟨.emptyOptions, by simp [decode]⟩
    | cons o rest =>
        cases rest with
        | nil => simp at h
        | cons o2 r2 => exact ⟨.tooManyOptions, by simp [decode]⟩
  · intro name sub child hopts hfind
    rcases hopts with hopts | hopts <;> subst hopts <;>
      simp [decode, hfind]

/-- Leaf command with a single required string option. -/
def demoLeaf : DefTree := .leaf [⟨"option", .string, false⟩]

/-- A subcommand-group node with two leaf children. -/
def demoGroup : DefTree := .node [("two", demoLeaf), ("three", demoLeaf)]

/-- A command with a leaf child and a group child. -/
def demoChildren : List (String × DefTree) :=
  [("one", demoLeaf), ("group", demoGroup)]

/-- Runtime options selecting subcommand `three` inside the group. -/
def demoSub : List CommandDataOption :=
  [.mk "three" (.subCommand [.mk "option" (.string "test")])]

/-- C2, witness: zero options at a subcommand level error out, and a
single matching group child decodes to that child's variant. -/
theorem subcommand_selection_witness :
    (∃ e, decode (.node demoChildren) [] = .error e) ∧
    decode (.node demoChildren)
        [CommandDataOption.mk "group" (.subCommandGroup demoSub)] =
      (decode demoGroup demoSub).map (Decoded.variant "group") := by
  refine ⟨(subcommand_selection demoChildren []).1 (by simp), ?_⟩
  exact (subcommand_selection demoChildren _).2 "group" demoSub demoGroup
    (Or.inr rfl) (by rfl)

end TwilightInteractions
